import Mathlib

/-!
Shallow embedding of the `geometry` repository (square-perimeter point
sampling) and proofs of the frozen claims.

Conventions:
* Python floats are modelled as exact rationals `ℚ`; tolerances such as
  `1e-9` and `1e-12` become the exact rationals `1/10^9` and `1/10^12`.
* Pseudorandom draws are explicit arguments: each sampler takes its first
  draws plus a list of further draws consumed by its retry loop, and returns
  `Option` (`none` only when the supplied retry draws run out, which models
  an adversarial infinite retry; Python loops forever in that measure-zero
  case and otherwise returns).
* `random.choice` over a four-element list is modelled by a four-constructor
  inductive type; `math.cos`/`math.sin` of a drawn angle are modelled by
  carrying the direction components alongside the angle in the draw, since
  they are transcendental.
* Exceptions are modelled with `Except`; the aggregator's Euclidean distance
  (`math.hypot`, irrational on ℚ) is abstracted: the aggregator is stated
  over the per-trial distance outcomes it consumes.
-/

namespace Geometry

abbrev Point := ℚ × ℚ

/-- The default perimeter-membership tolerance `1e-9`. -/
def tol9 : ℚ := 1 / 10 ^ 9

/-- The distinctness tolerance `1e-12`. -/
def tol12 : ℚ := 1 / 10 ^ 12

/-! ### utils/helpers.py -/

/-- `is_on_perimeter(point, L, tol)` from utils/helpers.py. -/
def is_on_perimeter (p : Point) (L : ℚ) (tol : ℚ) : Prop :=
  (|p.2| < tol ∧ 0 ≤ p.1 ∧ p.1 ≤ L) ∨
  (|p.2 - L| < tol ∧ 0 ≤ p.1 ∧ p.1 ≤ L) ∨
  (|p.1| < tol ∧ 0 ≤ p.2 ∧ p.2 ≤ L) ∨
  (|p.1 - L| < tol ∧ 0 ≤ p.2 ∧ p.2 ≤ L)

instance (p : Point) (L tol : ℚ) : Decidable (is_on_perimeter p L tol) := by
  unfold is_on_perimeter; infer_instance

/-- `side_of(point, L, tol)` from utils/helpers.py: builds the list of side
labels the point is within `tol` of, in the order bottom, top, left, right. -/
def side_of (p : Point) (L : ℚ) (tol : ℚ) : String :=
  let sides : List String :=
    (if |p.2| < tol then ["bottom"] else []) ++
    (if |p.2 - L| < tol then ["top"] else []) ++
    (if |p.1| < tol then ["left"] else []) ++
    (if |p.1 - L| < tol then ["right"] else [])
  if 1 < sides.length then "corner"
  else match sides with
    | s :: _ => s
    | [] => "off"

/-- `are_distinct(p1, p2, tol)` from utils/helpers.py. -/
def are_distinct (p1 p2 : Point) (tol : ℚ) : Prop :=
  |p1.1 - p2.1| > tol ∨ |p1.2 - p2.2| > tol

instance (p1 p2 : Point) (tol : ℚ) : Decidable (are_distinct p1 p2 tol) := by
  unfold are_distinct; infer_instance

/-- `clamp(value, lo, hi)` from utils/helpers.py: `max(lo, min(hi, value))`. -/
def clamp (value lo hi : ℚ) : ℚ := max lo (min hi value)

/-! ### square_points.py: helper functions -/

/-- Python's `%` on reals with a positive modulus: `t - m * ⌊t / m⌋`. -/
def pymod (t m : ℚ) : ℚ := t - m * ⌊t / m⌋

/-- `_perimeter_to_xy(t, L)` from square_points.py. -/
def _perimeter_to_xy (t L : ℚ) : Point :=
  let t' := pymod t (4 * L)
  if t' < L then (t', 0)
  else if t' < 2 * L then (L, t' - L)
  else if t' < 3 * L then (L - (t' - 2 * L), L)
  else (0, L - (t' - 3 * L))

/-- `_is_distinct(p1, p2, tol=1e-12)` from square_points.py. -/
def _is_distinct (p1 p2 : Point) (tol : ℚ := tol12) : Prop :=
  |p1.1 - p2.1| > tol ∨ |p1.2 - p2.2| > tol

instance (p1 p2 : Point) (tol : ℚ) : Decidable (_is_distinct p1 p2 tol) := by
  unfold _is_distinct; infer_instance

/-! ### Retry loops

Every sampler's `while not ok: redraw` loop is modelled by `retryLoop`,
which consumes a current draw and a list of further draws and returns the
first draw accepted by the loop guard (or `none` when the supplied draws
run out: Python would keep drawing, so `none` models nontermination on an
adversarial stream, never an exception). -/

def retryLoop {α : Type} (ok : α → Prop) [DecidablePred ok] :
    α → List α → Option α
  | cur, [] => if ok cur then some cur else none
  | cur, d :: ds => if ok cur then some cur else retryLoop ok d ds

/-! ### square_points.py: the nine samplers -/

/-- The four entries of the `SIDES` list used by `sample_by_side` and
`sample_side_pos` (`random.choice` over them is a draw of one). -/
inductive Side where
  | bottom
  | top
  | left
  | right
deriving DecidableEq, Repr

/-- The four entries of the `EDGES` list used by `sample_by_edge_label`. -/
inductive Edge where
  | x0
  | xL
  | y0
  | yL
deriving DecidableEq, Repr

/-- The inner `point` function of `sample_parametric`. -/
def parametric_point (L t : ℚ) : Point :=
  if t < L then (t, 0)
  else if t < 2 * L then (L, t - L)
  else if t < 3 * L then (3 * L - t, L)
  else (0, 4 * L - t)

/-- `sample_parametric(L)`: `t1`, `t2` are the two `random.uniform(0, 4L)`
draws, `ts` the further draws of its retry loop. -/
def sample_parametric (L t1 t2 : ℚ) (ts : List ℚ) : Option (Point × Point) :=
  (retryLoop (fun t => ¬ |t1 - t| < tol12) t2 ts).map
    (fun t2' => (parametric_point L t1, parametric_point L t2'))

/-- The inner `choose_point` of `sample_by_side` (position drawn inside is
passed explicitly). -/
def choose_point (L : ℚ) : Side → ℚ → Point
  | Side.bottom, s => (s, 0)
  | Side.top, s => (s, L)
  | Side.left, s => (0, s)
  | Side.right, s => (L, s)

/-- `sample_by_side(L)`: each draw is a `random.choice(SIDES)` paired with a
`random.uniform(0, L)` position. -/
def sample_by_side (L : ℚ) (d1 d2 : Side × ℚ) (ds : List (Side × ℚ)) :
    Option (Point × Point) :=
  let p1 := choose_point L d1.1 d1.2
  (retryLoop (fun d => _is_distinct p1 (choose_point L d.1 d.2)) d2 ds).map
    (fun d => (p1, choose_point L d.1 d.2))

/-- The inner `point` of `sample_by_edge_label`. -/
def edge_point (L : ℚ) : Edge → ℚ → Point
  | Edge.x0, s => (0, s)
  | Edge.xL, s => (L, s)
  | Edge.y0, s => (s, 0)
  | Edge.yL, s => (s, L)

/-- `sample_by_edge_label(L)`. -/
def sample_by_edge_label (L : ℚ) (d1 d2 : Edge × ℚ) (ds : List (Edge × ℚ)) :
    Option (Point × Point) :=
  let p1 := edge_point L d1.1 d1.2
  (retryLoop (fun d => _is_distinct p1 (edge_point L d.1 d.2)) d2 ds).map
    (fun d => (p1, edge_point L d.1 d.2))

/-- One angular draw: `theta` is the drawn angle (used only by the retry
guard) and `cosv`, `sinv` are `math.cos(theta)`, `math.sin(theta)`, carried
explicitly because cosine and sine are transcendental. -/
structure AngleDraw where
  theta : ℚ
  cosv : ℚ
  sinv : ℚ

/-- Lexicographic `<` on `(t, (x, y))` tuples, as Python compares tuples. -/
def tupLt (a b : ℚ × Point) : Prop :=
  a.1 < b.1 ∨ (a.1 = b.1 ∧ (a.2.1 < b.2.1 ∨ (a.2.1 = b.2.1 ∧ a.2.2 < b.2.2)))

instance (a b : ℚ × Point) : Decidable (tupLt a b) := by
  unfold tupLt; infer_instance

/-- Python's `min` over a list of `(t, point)` tuples: the first element
attaining the lexicographic minimum (`none` on an empty list). -/
def listMin1 : List (ℚ × Point) → Option (ℚ × Point)
  | [] => none
  | h :: t => some (t.foldl (fun acc c => if tupLt c acc then c else acc) h)

/-- The tail of `intersection` in `sample_polar_ray`:
`if not candidates: return (cx, 0.0)` / `return min(candidates)[1]`. -/
def ray_select (cx : ℚ) (cand : List (ℚ × Point)) : Point :=
  match listMin1 cand with
  | none => (cx, 0)
  | some c => c.2

/-- The inner `intersection` of `sample_polar_ray`, with the direction
`(dx, dy) = (cos θ, sin θ)` passed explicitly. -/
def ray_intersection (L dx dy : ℚ) : Point :=
  let cx := L / 2
  let cy := L / 2
  let candX : List (ℚ × Point) :=
    if dx ≠ 0 then
      [(0 : ℚ), L].filterMap (fun xw =>
        let t := (xw - cx) / dx
        let y := cy + t * dy
        if 0 < t ∧ 0 ≤ y ∧ y ≤ L then some (t, (xw, y)) else none)
    else []
  let candY : List (ℚ × Point) :=
    if dy ≠ 0 then
      [(0 : ℚ), L].filterMap (fun yw =>
        let t := (yw - cy) / dy
        let x := cx + t * dx
        if 0 < t ∧ 0 ≤ x ∧ x ≤ L then some (t, (x, yw)) else none)
    else []
  ray_select cx (candX ++ candY)

/-- `sample_polar_ray(L)`. -/
def sample_polar_ray (L : ℚ) (d1 d2 : AngleDraw) (ds : List AngleDraw) :
    Option (Point × Point) :=
  (retryLoop (fun d => ¬ |d1.theta - d.theta| < tol12) d2 ds).map
    (fun d => (ray_intersection L d1.cosv d1.sinv,
               ray_intersection L d.cosv d.sinv))

/-- The inner `point` of `sample_side_pos` (same mapping as `choose_point`,
defined separately in the source). -/
def side_pos_point (L : ℚ) : Side → ℚ → Point
  | Side.bottom, s => (s, 0)
  | Side.top, s => (s, L)
  | Side.left, s => (0, s)
  | Side.right, s => (L, s)

/-- `sample_side_pos(L)`: the retry guard tests the drawn side/position pair
(`side1 == side2 and abs(s1 - s2) < 1e-12`), not the resulting points. -/
def sample_side_pos (L : ℚ) (d1 d2 : Side × ℚ) (ds : List (Side × ℚ)) :
    Option (Point × Point) :=
  (retryLoop (fun d => ¬ (d1.1 = d.1 ∧ |d1.2 - d.2| < tol12)) d2 ds).map
    (fun d => (side_pos_point L d1.1 d1.2, side_pos_point L d.1 d.2))

/-- `sample_parametric_modular(L)`. -/
def sample_parametric_modular (L t1 t2 : ℚ) (ts : List ℚ) :
    Option (Point × Point) :=
  (retryLoop (fun t => ¬ |t1 - t| < tol12) t2 ts).map
    (fun t2' => (_perimeter_to_xy t1 L, _perimeter_to_xy t2' L))

/-- One draw of `sample_cartesian`'s `pick_point`: `fixX` is the
`random.random() < 0.5` coin, `endL` picks `L` (else `0.0`) in
`random.choice([0.0, L])`, and `s` is the `random.uniform(0, L)` draw. -/
structure CartDraw where
  fixX : Bool
  endL : Bool
  s : ℚ

/-- The inner `pick_point` of `sample_cartesian`. -/
def cart_pick_point (L : ℚ) (d : CartDraw) : Point :=
  if d.fixX then ((if d.endL then L else 0), d.s)
  else (d.s, (if d.endL then L else 0))

/-- `sample_cartesian(L)`. -/
def sample_cartesian (L : ℚ) (d1 d2 : CartDraw) (ds : List CartDraw) :
    Option (Point × Point) :=
  let p1 := cart_pick_point L d1
  (retryLoop (fun d => _is_distinct p1 (cart_pick_point L d)) d2 ds).map
    (fun d => (p1, cart_pick_point L d))

/-- The inner `angle_to_point` of `sample_polar_angle`, with
`(cos_t, sin_t)` passed explicitly. -/
def angle_to_point (L cos_t sin_t : ℚ) : Point :=
  let cx := L / 2
  let cy := L / 2
  let half := L / 2
  let scale := if |cos_t| ≥ |sin_t| then half / |cos_t| else half / |sin_t|
  (max 0 (min L (cx + cos_t * scale)), max 0 (min L (cy + sin_t * scale)))

/-- `sample_polar_angle(L)`. -/
def sample_polar_angle (L : ℚ) (d1 d2 : AngleDraw) (ds : List AngleDraw) :
    Option (Point × Point) :=
  (retryLoop (fun d => ¬ |d1.theta - d.theta| < tol12) d2 ds).map
    (fun d => (angle_to_point L d1.cosv d1.sinv,
               angle_to_point L d.cosv d.sinv))

/-- Python's `min(d, key=d.get)` over the insertion-ordered dict of
`project_to_border`: the first key attaining the minimal value. -/
def argmin_key (h : Side × ℚ) (t : List (Side × ℚ)) : Side :=
  (t.foldl (fun acc c => if c.2 < acc.2 then c else acc) h).1

/-- The inner `project_to_border` of `sample_interior_projection`. -/
def project_to_border (L x y : ℚ) : Point :=
  match argmin_key (Side.bottom, y)
      [(Side.top, L - y), (Side.left, x), (Side.right, L - x)] with
  | Side.bottom => (x, 0)
  | Side.top => (x, L)
  | Side.left => (0, y)
  | Side.right => (L, y)

/-- The inner `pick_point` of `sample_interior_projection`: the draw is the
uniform interior point `(x, y) ∈ [0, L]²`. -/
def interior_pick_point (L : ℚ) (d : ℚ × ℚ) : Point :=
  project_to_border L d.1 d.2

/-- `sample_interior_projection(L)`. -/
def sample_interior_projection (L : ℚ) (d1 d2 : ℚ × ℚ) (ds : List (ℚ × ℚ)) :
    Option (Point × Point) :=
  let p1 := interior_pick_point L d1
  (retryLoop (fun d => _is_distinct p1 (interior_pick_point L d)) d2 ds).map
    (fun d => (p1, interior_pick_point L d))

/-! ### core/base.py -/

/-- `PerimeterSampler.__init__(self, L)` from core/base.py: raises
`ValueError` for `L <= 0`, else stores `L`. -/
def perimeterSampler_init (L : ℚ) : Except String ℚ :=
  if L ≤ 0 then Except.error "Side length L must be positive" else Except.ok L

/-- A point is "good" for side length `L`: on the perimeter within the
default tolerance `1e-9` and with both coordinates in `[0, L]`. -/
def goodPoint (L : ℚ) (p : Point) : Prop :=
  is_on_perimeter p L tol9 ∧ 0 ≤ p.1 ∧ p.1 ≤ L ∧ 0 ≤ p.2 ∧ p.2 ≤ L

instance (L : ℚ) (p : Point) : Decidable (goodPoint L p) := by
  unfold goodPoint; infer_instance

/-! ### distance_analysis.py: the aggregator

A strategy's outcome in one trial is `Except Unit ℚ`: the value of the
`try` block (`fn(L)` followed by `euclidean(p1, p2)`), with any exception
mapped to `error`.  The Euclidean distance itself (`math.hypot`, irrational
over ℚ) is left abstract: the aggregator is modelled from the point where
the per-trial distances exist. -/

/-- `math.isclose(a, b, rel_tol=1e-9)` with the default `abs_tol = 0.0`:
`abs(a-b) <= max(rel_tol * max(abs(a), abs(b)), abs_tol)`. -/
def isclose (a b : ℚ) : Prop := |a - b| ≤ max (tol9 * max |a| |b|) 0

instance (a b : ℚ) : Decidable (isclose a b) := by
  unfold isclose; infer_instance

/-- The accumulators of `run_all`: per-method distance lists (`None` for a
failed trial) and per-method win tallies. -/
structure RunData where
  distances : List (List (Option ℚ))
  min_wins : List Nat
  max_wins : List Nat

/-- One trial's `row`: each strategy's `try` outcome, exceptions recorded
as `None`. -/
def mkRow (outs : List (Except Unit ℚ)) : List (Option ℚ) :=
  outs.map Except.toOption

/-- `min(d for i, d in valid)` over the successful entries of a row
(`none` when no strategy succeeded). -/
def rowValidMin (row : List (Option ℚ)) : Option ℚ :=
  match row.filterMap id with
  | [] => none
  | h :: t => some (t.foldl min h)

/-- `max(d for i, d in valid)` over the successful entries of a row. -/
def rowValidMax (row : List (Option ℚ)) : Option ℚ :=
  match row.filterMap id with
  | [] => none
  | h :: t => some (t.foldl max h)

/-- The per-strategy win increments of one trial: `1` where the strategy
succeeded with a distance `isclose` to the trial extremum, else `0`. -/
def creditRow (row : List (Option ℚ)) (target : ℚ) : List Nat :=
  row.map (fun e => match e with
    | some d => if isclose d target then 1 else 0
    | none => 0)

/-- One iteration of `run_all`'s main loop: credit the min/max wins when at
least one strategy succeeded (`if valid:`), then append each strategy's
outcome to its distance list. -/
def runAllStep (row : List (Option ℚ)) (acc : RunData) : RunData :=
  match rowValidMin row, rowValidMax row with
  | some mind, some maxd =>
      { distances := List.zipWith (fun l e => l ++ [e]) acc.distances row,
        min_wins := List.zipWith (· + ·) acc.min_wins (creditRow row mind),
        max_wins := List.zipWith (· + ·) acc.max_wins (creditRow row maxd) }
  | _, _ =>
      { distances := List.zipWith (fun l e => l ++ [e]) acc.distances row,
        min_wins := acc.min_wins,
        max_wins := acc.max_wins }

/-- The accumulators before the first trial. -/
def runAllInit (n : Nat) : RunData :=
  ⟨List.replicate n [], List.replicate n 0, List.replicate n 0⟩

/-- `run_all(L, iterations)` with `n` strategies whose trial outcomes are
`outs` (trial `t`'s row is `outs t`). -/
def runAll (n : Nat) (outs : Nat → List (Except Unit ℚ)) : Nat → RunData
  | 0 => runAllInit n
  | k + 1 => runAllStep (mkRow (outs k)) (runAll n outs k)

/-- One method's summary record.  The source reports
`std = math.sqrt(variance)`; the record carries the radicand `variance`
(the claims' content — the population divisor — lives there). -/
structure Stats where
  count_gt_L : Nat
  attempts : Nat
  mean : ℚ
  variance : ℚ
  dmin : ℚ
  dmax : ℚ
deriving DecidableEq, Repr

/-- The per-method body of `summarize` from distance_analysis.py:
filter out the `None` entries and compute the statistics, or the all-zero
record when nothing was recorded. -/
def summarizeOne (dlistOpt : List (Option ℚ)) (L : ℚ) : Stats :=
  let dlist := dlistOpt.filterMap id
  match dlist with
  | [] => ⟨0, 0, 0, 0, 0, 0⟩
  | h :: t =>
    let attempts := dlist.length
    let count_gt_L := (dlist.map (fun d => if L < d then (1 : Nat) else 0)).sum
    let mean := dlist.sum / (attempts : ℚ)
    let variance := (dlist.map (fun d => (d - mean) ^ 2)).sum / (attempts : ℚ)
    ⟨count_gt_L, attempts, mean, variance, t.foldl min h, t.foldl max h⟩

/-- `summarize(data, L)` from distance_analysis.py: one `(stats, min_wins,
max_wins)` triple per method, with the win tallies zeroed on the
no-recorded-distance branch (the source appends a literal all-zero tuple
there). -/
def summarize (data : RunData) (L : ℚ) : List (Stats × Nat × Nat) :=
  (data.distances.zip (data.min_wins.zip data.max_wins)).map
    (fun x =>
      if x.1.filterMap id = [] then (⟨0, 0, 0, 0, 0, 0⟩, 0, 0)
      else (summarizeOne x.1 L, x.2.1, x.2.2))

/-- `analyze(method_fn, L, iterations)` from distance_analysis_stat.py,
over the per-iteration outcomes of its inner loop (exceptions skipped with
`continue`): same statistics as `summarize`, without win tallies. -/
def analyze (outcomes : List (Except Unit ℚ)) (L : ℚ) : Stats :=
  let distances := outcomes.filterMap Except.toOption
  match distances with
  | [] => ⟨0, 0, 0, 0, 0, 0⟩
  | h :: t =>
    let attempts := distances.length
    let count_gt_L :=
      (distances.map (fun d => if L < d then (1 : Nat) else 0)).sum
    let mean := distances.sum / (attempts : ℚ)
    let variance :=
      (distances.map (fun d => (d - mean) ^ 2)).sum / (attempts : ℚ)
    ⟨count_gt_L, attempts, mean, variance, t.foldl min h, t.foldl max h⟩

/-! Basic facts about `pymod`. -/

theorem pymod_nonneg (t m : ℚ) (hm : 0 < m) : 0 ≤ pymod t m := by
  unfold pymod
  have h := Int.floor_le (t / m)
  have : m * (⌊t / m⌋ : ℚ) ≤ m * (t / m) := by
    exact mul_le_mul_of_nonneg_left h (le_of_lt hm)
  rw [mul_div_cancel₀ t (ne_of_gt hm)] at this
  linarith

theorem pymod_lt (t m : ℚ) (hm : 0 < m) : pymod t m < m := by
  unfold pymod
  have h := Int.lt_floor_add_one (t / m)
  have : m * (t / m) < m * ((⌊t / m⌋ : ℚ) + 1) := by
    exact mul_lt_mul_of_pos_left h hm
  rw [mul_div_cancel₀ t (ne_of_gt hm)] at this
  nlinarith

theorem pymod_add_right (t m : ℚ) (hm : m ≠ 0) : pymod (t + m) m = pymod t m := by
  unfold pymod
  have : (t + m) / m = t / m + 1 := by
    field_simp
  rw [this, Int.floor_add_one]
  push_cast
  ring

theorem pymod_eq_self (t m : ℚ) (hm : 0 < m) (h0 : 0 ≤ t) (h1 : t < m) :
    pymod t m = t := by
  unfold pymod
  have hfl : ⌊t / m⌋ = 0 := by
    rw [Int.floor_eq_zero_iff]
    constructor
    · exact div_nonneg h0 (le_of_lt hm)
    · rw [div_lt_one hm]; exact h1
  rw [hfl]
  push_cast
  ring

/-! ### Facts about `retryLoop` -/

theorem retryLoop_sat {α : Type} (ok : α → Prop) [DecidablePred ok]
    (cur : α) (ds : List α) (a : α) (h : retryLoop ok cur ds = some a) :
    ok a := by
  induction ds generalizing cur with
  | nil =>
    unfold retryLoop at h
    split at h
    · cases h; assumption
    · cases h
  | cons d ds ih =>
    unfold retryLoop at h
    split at h
    · cases h; assumption
    · exact ih d h

theorem retryLoop_mem {α : Type} (ok : α → Prop) [DecidablePred ok]
    (cur : α) (ds : List α) (a : α) (h : retryLoop ok cur ds = some a) :
    a ∈ cur :: ds := by
  induction ds generalizing cur with
  | nil =>
    unfold retryLoop at h
    split at h
    · cases h; exact List.mem_singleton_self _
    · cases h
  | cons d ds ih =>
    unfold retryLoop at h
    split at h
    · cases h; exact List.mem_cons_self _ _
    · have := ih d h
      rcases List.mem_cons.mp this with h' | h'
      · subst h'; exact List.mem_cons_of_mem _ (List.mem_cons_self _ _)
      · exact List.mem_cons_of_mem _ (List.mem_cons_of_mem _ h')

/-! ### Points on the four sides are good -/

theorem goodPoint_bottom {L s : ℚ} (hL : 0 < L) (h0 : 0 ≤ s) (h1 : s ≤ L) :
    goodPoint L (s, 0) := by
  refine ⟨Or.inl ⟨?_, h0, h1⟩, h0, h1, le_rfl, le_of_lt hL⟩
  norm_num [tol9]

theorem goodPoint_top {L s : ℚ} (hL : 0 < L) (h0 : 0 ≤ s) (h1 : s ≤ L) :
    goodPoint L (s, L) := by
  refine ⟨Or.inr (Or.inl ⟨?_, h0, h1⟩), h0, h1, le_of_lt hL, le_rfl⟩
  norm_num [tol9]

theorem goodPoint_left {L s : ℚ} (hL : 0 < L) (h0 : 0 ≤ s) (h1 : s ≤ L) :
    goodPoint L (0, s) := by
  refine ⟨Or.inr (Or.inr (Or.inl ⟨?_, h0, h1⟩)), le_rfl, le_of_lt hL, h0, h1⟩
  norm_num [tol9]

theorem goodPoint_right {L s : ℚ} (hL : 0 < L) (h0 : 0 ≤ s) (h1 : s ≤ L) :
    goodPoint L (L, s) := by
  refine ⟨Or.inr (Or.inr (Or.inr ⟨?_, h0, h1⟩)), le_of_lt hL, le_rfl, h0, h1⟩
  norm_num [tol9]

/-! ### The per-sampler point constructors produce good points -/

theorem goodPoint_parametric_point {L t : ℚ} (hL : 0 < L)
    (h0 : 0 ≤ t) (h4 : t ≤ 4 * L) : goodPoint L (parametric_point L t) := by
  unfold parametric_point
  split_ifs with h1 h2 h3
  · exact goodPoint_bottom hL h0 (le_of_lt h1)
  · exact goodPoint_right hL (by linarith) (by linarith)
  · exact goodPoint_top hL (by linarith) (by linarith)
  · exact goodPoint_left hL (by linarith) (by linarith)

theorem goodPoint_perimeter_to_xy {L : ℚ} (hL : 0 < L) (t : ℚ) :
    goodPoint L (_perimeter_to_xy t L) := by
  have h4L : 0 < 4 * L := by linarith
  have h0 := pymod_nonneg t (4 * L) h4L
  have h4 := pymod_lt t (4 * L) h4L
  show goodPoint L
    (if pymod t (4 * L) < L then (pymod t (4 * L), 0)
     else if pymod t (4 * L) < 2 * L then (L, pymod t (4 * L) - L)
     else if pymod t (4 * L) < 3 * L then (L - (pymod t (4 * L) - 2 * L), L)
     else (0, L - (pymod t (4 * L) - 3 * L)))
  split_ifs with h1 h2 h3
  · exact goodPoint_bottom hL h0 (le_of_lt h1)
  · exact goodPoint_right hL (by linarith) (by linarith)
  · exact goodPoint_top hL (by linarith) (by linarith)
  · exact goodPoint_left hL (by linarith) (by linarith)

theorem goodPoint_choose_point {L s : ℚ} (hL : 0 < L)
    (h0 : 0 ≤ s) (h1 : s ≤ L) (side : Side) :
    goodPoint L (choose_point L side s) := by
  cases side
  · exact goodPoint_bottom hL h0 h1
  · exact goodPoint_top hL h0 h1
  · exact goodPoint_left hL h0 h1
  · exact goodPoint_right hL h0 h1

theorem goodPoint_edge_point {L s : ℚ} (hL : 0 < L)
    (h0 : 0 ≤ s) (h1 : s ≤ L) (e : Edge) :
    goodPoint L (edge_point L e s) := by
  cases e
  · exact goodPoint_left hL h0 h1
  · exact goodPoint_right hL h0 h1
  · exact goodPoint_bottom hL h0 h1
  · exact goodPoint_top hL h0 h1

theorem goodPoint_side_pos_point {L s : ℚ} (hL : 0 < L)
    (h0 : 0 ≤ s) (h1 : s ≤ L) (side : Side) :
    goodPoint L (side_pos_point L side s) := by
  cases side
  · exact goodPoint_bottom hL h0 h1
  · exact goodPoint_top hL h0 h1
  · exact goodPoint_left hL h0 h1
  · exact goodPoint_right hL h0 h1

theorem goodPoint_cart_pick_point {L : ℚ} (hL : 0 < L) (d : CartDraw)
    (h0 : 0 ≤ d.s) (h1 : d.s ≤ L) : goodPoint L (cart_pick_point L d) := by
  rcases d with ⟨fx, el, s⟩
  cases fx <;> cases el <;> simp only [cart_pick_point] <;> simp
  · exact goodPoint_bottom hL h0 h1
  · exact goodPoint_top hL h0 h1
  · exact goodPoint_left hL h0 h1
  · exact goodPoint_right hL h0 h1

theorem goodPoint_project_to_border {L x y : ℚ} (hL : 0 < L)
    (hx0 : 0 ≤ x) (hx1 : x ≤ L) (hy0 : 0 ≤ y) (hy1 : y ≤ L) :
    goodPoint L (project_to_border L x y) := by
  unfold project_to_border
  split
  · exact goodPoint_bottom hL hx0 hx1
  · exact goodPoint_top hL hx0 hx1
  · exact goodPoint_left hL hy0 hy1
  · exact goodPoint_right hL hy0 hy1

/-- A fold that at each step keeps either the accumulator or the next
element stays inside the initial element and the list. -/
theorem foldl_choice_mem {α : Type} (f : α → α → α)
    (hf : ∀ a b, f a b = a ∨ f a b = b) (init : α) (l : List α) :
    l.foldl f init ∈ init :: l := by
  induction l generalizing init with
  | nil => simp
  | cons h t ih =>
    simp only [List.foldl_cons]
    rcases hf init h with he | he <;> rw [he]
    · rcases List.mem_cons.mp (ih init) with h' | h'
      · rw [h']; exact List.mem_cons_self _ _
      · exact List.mem_cons_of_mem _ (List.mem_cons_of_mem _ h')
    · rcases List.mem_cons.mp (ih h) with h' | h'
      · rw [h']; exact List.mem_cons_of_mem _ (List.mem_cons_self _ _)
      · exact List.mem_cons_of_mem _ (List.mem_cons_of_mem _ h')

theorem listMin1_mem (l : List (ℚ × Point)) (c : ℚ × Point)
    (h : listMin1 l = some c) : c ∈ l := by
  cases l with
  | nil => cases h
  | cons hd t =>
    unfold listMin1 at h
    cases h
    exact foldl_choice_mem _
      (fun a b => by split <;> [exact Or.inr rfl; exact Or.inl rfl])
      hd t

/-- `ray_select` of a list of good candidates is good: either it picks a
candidate or falls back to the bottom midpoint. -/
theorem ray_select_good (L : ℚ) (hL : 0 < L) (cand : List (ℚ × Point))
    (hgood : ∀ p ∈ cand, goodPoint L p.2) :
    goodPoint L (ray_select (L / 2) cand) := by
  unfold ray_select
  rcases hmin : listMin1 cand with _ | c
  · exact goodPoint_bottom hL (by positivity) (by linarith)
  · exact hgood c (listMin1_mem cand c hmin)

/-- The `intersection` result is either one of the wall candidates (each of
which lies on a wall with the free coordinate in `[0, L]`) or the fallback
bottom-midpoint. -/
theorem goodPoint_ray_intersection {L : ℚ} (hL : 0 < L) (dx dy : ℚ) :
    goodPoint L (ray_intersection L dx dy) := by
  refine ray_select_good L hL _ ?_
  intro c hc
  rcases List.mem_append.mp hc with h' | h'
  · by_cases hdx : dx ≠ 0
    · rw [if_pos hdx] at h'
      rcases List.mem_filterMap.mp h' with ⟨xw, hxw, hg⟩
      dsimp only at hg
      split at hg
      · rename_i hcond
        obtain ⟨-, hy0, hy1⟩ := hcond
        cases hg
        rcases (by simpa using hxw : xw = 0 ∨ xw = L) with rfl | rfl
        · exact goodPoint_left hL hy0 hy1
        · exact goodPoint_right hL hy0 hy1
      · cases hg
    · rw [if_neg hdx] at h'
      cases h'
  · by_cases hdy : dy ≠ 0
    · rw [if_pos hdy] at h'
      rcases List.mem_filterMap.mp h' with ⟨yw, hyw, hg⟩
      dsimp only at hg
      split at hg
      · rename_i hcond
        obtain ⟨-, hx0, hx1⟩ := hcond
        cases hg
        rcases (by simpa using hyw : yw = 0 ∨ yw = L) with rfl | rfl
        · exact goodPoint_bottom hL hx0 hx1
        · exact goodPoint_top hL hx0 hx1
      · cases hg
    · rw [if_neg hdy] at h'
      cases h'

/-- `angle_to_point` lands on the perimeter whenever the direction
components are not both zero (for a real angle, `cos` and `sin` never
vanish together). -/
theorem goodPoint_angle_to_point {L : ℚ} (hL : 0 < L) (c s : ℚ)
    (hcs : ¬ (c = 0 ∧ s = 0)) : goodPoint L (angle_to_point L c s) := by
  have hclamp : ∀ w : ℚ, 0 ≤ max 0 (min L w) ∧ max 0 (min L w) ≤ L :=
    fun w => ⟨le_max_left _ _, max_le (le_of_lt hL) (min_le_left _ _)⟩
  have hmax0 : max 0 (min L (0 : ℚ)) = 0 := by
    rw [min_eq_right (le_of_lt hL), max_self]
  have hmaxL : max 0 (min L L) = L := by
    rw [min_self, max_eq_right (le_of_lt hL)]
  unfold angle_to_point
  dsimp only
  split_ifs with h
  · have hc0 : c ≠ 0 := by
      intro hc
      apply hcs
      refine ⟨hc, ?_⟩
      rw [hc, abs_zero] at h
      exact abs_eq_zero.mp (le_antisymm h (abs_nonneg s))
    rcases hc0.lt_or_lt with hneg | hpos
    · have hx : L / 2 + c * (L / 2 / |c|) = 0 := by
        rw [abs_of_neg hneg]
        field_simp
        ring
      rw [hx, hmax0]
      exact goodPoint_left hL (hclamp _).1 (hclamp _).2
    · have hx : L / 2 + c * (L / 2 / |c|) = L := by
        rw [abs_of_pos hpos]
        field_simp
        ring
      rw [hx, hmaxL]
      exact goodPoint_right hL (hclamp _).1 (hclamp _).2
  · have hs0 : s ≠ 0 := by
      intro hs
      rw [hs, abs_zero] at h
      exact h (abs_nonneg c)
    rcases hs0.lt_or_lt with hneg | hpos
    · have hy : L / 2 + s * (L / 2 / |s|) = 0 := by
        rw [abs_of_neg hneg]
        field_simp
        ring
      rw [hy, hmax0]
      exact goodPoint_bottom hL (hclamp _).1 (hclamp _).2
    · have hy : L / 2 + s * (L / 2 / |s|) = L := by
        rw [abs_of_pos hpos]
        field_simp
        ring
      rw [hy, hmaxL]
      exact goodPoint_top hL (hclamp _).1 (hclamp _).2

/-! ### C7: periodicity and corner exactness of the parametrization -/

/-- **C7.** For every `L > 0` the perimeter parametrization is periodic with
period `4L` (`_perimeter_to_xy (t + 4L) L = _perimeter_to_xy t L` for every
rational `t`) and is exact at the four corners:
`f 0 = (0,0)`, `f L = (L,0)`, `f (2L) = (L,L)`, `f (3L) = (0,L)`. -/
theorem perimeter_to_xy_periodic_and_corners (L : ℚ) (hL : 0 < L) :
    (∀ t : ℚ, _perimeter_to_xy (t + 4 * L) L = _perimeter_to_xy t L) ∧
    _perimeter_to_xy 0 L = (0, 0) ∧
    _perimeter_to_xy L L = (L, 0) ∧
    _perimeter_to_xy (2 * L) L = (L, L) ∧
    _perimeter_to_xy (3 * L) L = (0, L) := by
  have h4L : 0 < 4 * L := by linarith
  refine ⟨?_, ?_, ?_, ?_, ?_⟩
  · intro t
    unfold _perimeter_to_xy
    rw [pymod_add_right t (4 * L) (ne_of_gt h4L)]
  · unfold _perimeter_to_xy
    rw [pymod_eq_self 0 (4 * L) h4L le_rfl h4L]
    simp [hL]
  · unfold _perimeter_to_xy
    rw [pymod_eq_self L (4 * L) h4L (le_of_lt hL) (by linarith)]
    have h1 : ¬ L < L := lt_irrefl L
    have h2 : L < 2 * L := by linarith
    simp [h1, h2]
  · unfold _perimeter_to_xy
    rw [pymod_eq_self (2 * L) (4 * L) h4L (by linarith) (by linarith)]
    have h1 : ¬ (2 * L < L) := by linarith
    have h2 : ¬ (2 * L < 2 * L) := lt_irrefl _
    have h3 : 2 * L < 3 * L := by linarith
    simp [h1, h2, h3]
  · unfold _perimeter_to_xy
    rw [pymod_eq_self (3 * L) (4 * L) h4L (by linarith) (by linarith)]
    have h1 : ¬ (3 * L < L) := by linarith
    have h2 : ¬ (3 * L < 2 * L) := by linarith
    have h3 : ¬ (3 * L < 3 * L) := lt_irrefl _
    simp [h1, h2, h3]

/-- Witness for C7 at `L = 1`. -/
theorem perimeter_to_xy_periodic_and_corners_witness :
    _perimeter_to_xy (1 + 4 * 1) 1 = _perimeter_to_xy 1 1 ∧
    _perimeter_to_xy 0 1 = (0, 0) ∧
    _perimeter_to_xy 1 1 = (1, 0) ∧
    _perimeter_to_xy (2 * 1) 1 = (1, 1) ∧
    _perimeter_to_xy (3 * 1) 1 = (0, 1) := by
  obtain ⟨hper, h0, h1, h2, h3⟩ :=
    perimeter_to_xy_periodic_and_corners 1 (by norm_num)
  exact ⟨hper 1, h0, h1, h2, h3⟩

/-! ### C9: side classification -/

/-- **C9.** `side_of` returns `"corner"` exactly when the point is within
`tol` of at least two of the four side lines, the unique side label when it
is within `tol` of exactly one, and `"off"` when it is within `tol` of
none. -/
theorem side_of_classification (p : Point) (L tol : ℚ) :
    ((side_of p L tol = "corner") ↔
      ((|p.2| < tol ∧ |p.2 - L| < tol) ∨ (|p.2| < tol ∧ |p.1| < tol) ∨
       (|p.2| < tol ∧ |p.1 - L| < tol) ∨ (|p.2 - L| < tol ∧ |p.1| < tol) ∨
       (|p.2 - L| < tol ∧ |p.1 - L| < tol) ∨ (|p.1| < tol ∧ |p.1 - L| < tol))) ∧
    (|p.2| < tol ∧ ¬ |p.2 - L| < tol ∧ ¬ |p.1| < tol ∧ ¬ |p.1 - L| < tol →
      side_of p L tol = "bottom") ∧
    (¬ |p.2| < tol ∧ |p.2 - L| < tol ∧ ¬ |p.1| < tol ∧ ¬ |p.1 - L| < tol →
      side_of p L tol = "top") ∧
    (¬ |p.2| < tol ∧ ¬ |p.2 - L| < tol ∧ |p.1| < tol ∧ ¬ |p.1 - L| < tol →
      side_of p L tol = "left") ∧
    (¬ |p.2| < tol ∧ ¬ |p.2 - L| < tol ∧ ¬ |p.1| < tol ∧ |p.1 - L| < tol →
      side_of p L tol = "right") ∧
    (¬ |p.2| < tol ∧ ¬ |p.2 - L| < tol ∧ ¬ |p.1| < tol ∧ ¬ |p.1 - L| < tol →
      side_of p L tol = "off") := by
  by_cases hB : |p.2| < tol <;> by_cases hT : |p.2 - L| < tol <;>
    by_cases hl : |p.1| < tol <;> by_cases hR : |p.1 - L| < tol <;>
    simp [side_of, hB, hT, hl, hR]

/-! ### C1: every sampler returns perimeter points with coordinates in `[0, L]` -/

/-- **C1.** For every `L > 0` and every sequence of pseudorandom draws (each
draw within the range Python's generator produces: `uniform(0, 4L)`,
`uniform(0, L)`, a four-way choice, a coin, or an angle with its direction
components not both zero), whenever one of the nine sampling functions
returns a pair, both points satisfy `is_on_perimeter` at tolerance `1e-9`
and both coordinates of both points lie within `[0, L]`.  No error path
exists in any sampler. -/
theorem samplers_on_perimeter (L : ℚ) (hL : 0 < L) :
    (∀ (t1 t2 : ℚ) (ts : List ℚ) (r : Point × Point), 0 ≤ t1 → t1 ≤ 4 * L →
      (∀ t ∈ t2 :: ts, 0 ≤ t ∧ t ≤ 4 * L) →
      sample_parametric L t1 t2 ts = some r →
      goodPoint L r.1 ∧ goodPoint L r.2) ∧
    (∀ (d1 d2 : Side × ℚ) (ds : List (Side × ℚ)) (r : Point × Point),
      0 ≤ d1.2 → d1.2 ≤ L → (∀ d ∈ d2 :: ds, 0 ≤ d.2 ∧ d.2 ≤ L) →
      sample_by_side L d1 d2 ds = some r →
      goodPoint L r.1 ∧ goodPoint L r.2) ∧
    (∀ (d1 d2 : Edge × ℚ) (ds : List (Edge × ℚ)) (r : Point × Point),
      0 ≤ d1.2 → d1.2 ≤ L → (∀ d ∈ d2 :: ds, 0 ≤ d.2 ∧ d.2 ≤ L) →
      sample_by_edge_label L d1 d2 ds = some r →
      goodPoint L r.1 ∧ goodPoint L r.2) ∧
    (∀ (d1 d2 : AngleDraw) (ds : List AngleDraw) (r : Point × Point),
      sample_polar_ray L d1 d2 ds = some r →
      goodPoint L r.1 ∧ goodPoint L r.2) ∧
    (∀ (d1 d2 : Side × ℚ) (ds : List (Side × ℚ)) (r : Point × Point),
      0 ≤ d1.2 → d1.2 ≤ L → (∀ d ∈ d2 :: ds, 0 ≤ d.2 ∧ d.2 ≤ L) →
      sample_side_pos L d1 d2 ds = some r →
      goodPoint L r.1 ∧ goodPoint L r.2) ∧
    (∀ (t1 t2 : ℚ) (ts : List ℚ) (r : Point × Point),
      sample_parametric_modular L t1 t2 ts = some r →
      goodPoint L r.1 ∧ goodPoint L r.2) ∧
    (∀ (d1 d2 : CartDraw) (ds : List CartDraw) (r : Point × Point),
      0 ≤ d1.s → d1.s ≤ L → (∀ d ∈ d2 :: ds, 0 ≤ d.s ∧ d.s ≤ L) →
      sample_cartesian L d1 d2 ds = some r →
      goodPoint L r.1 ∧ goodPoint L r.2) ∧
    (∀ (d1 d2 : AngleDraw) (ds : List AngleDraw) (r : Point × Point),
      ¬ (d1.cosv = 0 ∧ d1.sinv = 0) →
      (∀ d ∈ d2 :: ds, ¬ (d.cosv = 0 ∧ d.sinv = 0)) →
      sample_polar_angle L d1 d2 ds = some r →
      goodPoint L r.1 ∧ goodPoint L r.2) ∧
    (∀ (d1 d2 : ℚ × ℚ) (ds : List (ℚ × ℚ)) (r : Point × Point),
      0 ≤ d1.1 → d1.1 ≤ L → 0 ≤ d1.2 → d1.2 ≤ L →
      (∀ d ∈ d2 :: ds, 0 ≤ d.1 ∧ d.1 ≤ L ∧ 0 ≤ d.2 ∧ d.2 ≤ L) →
      sample_interior_projection L d1 d2 ds = some r →
      goodPoint L r.1 ∧ goodPoint L r.2) := by
  refine ⟨?_, ?_, ?_, ?_, ?_, ?_, ?_, ?_, ?_⟩
  · intro t1 t2 ts r h0 h4 hts hr
    simp only [sample_parametric] at hr
    rcases Option.map_eq_some'.mp hr with ⟨t2', hloop, hf⟩
    obtain ⟨h0', h4'⟩ := hts t2' (retryLoop_mem _ _ _ _ hloop)
    cases hf
    exact ⟨goodPoint_parametric_point hL h0 h4,
           goodPoint_parametric_point hL h0' h4'⟩
  · intro d1 d2 ds r h0 h1 hds hr
    simp only [sample_by_side] at hr
    rcases Option.map_eq_some'.mp hr with ⟨d, hloop, hf⟩
    obtain ⟨h0', h1'⟩ := hds d (retryLoop_mem _ _ _ _ hloop)
    cases hf
    exact ⟨goodPoint_choose_point hL h0 h1 _,
           goodPoint_choose_point hL h0' h1' _⟩
  · intro d1 d2 ds r h0 h1 hds hr
    simp only [sample_by_edge_label] at hr
    rcases Option.map_eq_some'.mp hr with ⟨d, hloop, hf⟩
    obtain ⟨h0', h1'⟩ := hds d (retryLoop_mem _ _ _ _ hloop)
    cases hf
    exact ⟨goodPoint_edge_point hL h0 h1 _,
           goodPoint_edge_point hL h0' h1' _⟩
  · intro d1 d2 ds r hr
    simp only [sample_polar_ray] at hr
    rcases Option.map_eq_some'.mp hr with ⟨d, hloop, hf⟩
    cases hf
    exact ⟨goodPoint_ray_intersection hL _ _,
           goodPoint_ray_intersection hL _ _⟩
  · intro d1 d2 ds r h0 h1 hds hr
    simp only [sample_side_pos] at hr
    rcases Option.map_eq_some'.mp hr with ⟨d, hloop, hf⟩
    obtain ⟨h0', h1'⟩ := hds d (retryLoop_mem _ _ _ _ hloop)
    cases hf
    exact ⟨goodPoint_side_pos_point hL h0 h1 _,
           goodPoint_side_pos_point hL h0' h1' _⟩
  · intro t1 t2 ts r hr
    simp only [sample_parametric_modular] at hr
    rcases Option.map_eq_some'.mp hr with ⟨t2', hloop, hf⟩
    cases hf
    exact ⟨goodPoint_perimeter_to_xy hL _, goodPoint_perimeter_to_xy hL _⟩
  · intro d1 d2 ds r h0 h1 hds hr
    simp only [sample_cartesian] at hr
    rcases Option.map_eq_some'.mp hr with ⟨d, hloop, hf⟩
    obtain ⟨h0', h1'⟩ := hds d (retryLoop_mem _ _ _ _ hloop)
    cases hf
    exact ⟨goodPoint_cart_pick_point hL _ h0 h1,
           goodPoint_cart_pick_point hL _ h0' h1'⟩
  · intro d1 d2 ds r h1 hds hr
    simp only [sample_polar_angle] at hr
    rcases Option.map_eq_some'.mp hr with ⟨d, hloop, hf⟩
    have hd := hds d (retryLoop_mem _ _ _ _ hloop)
    cases hf
    exact ⟨goodPoint_angle_to_point hL _ _ h1,
           goodPoint_angle_to_point hL _ _ hd⟩
  · intro d1 d2 ds r hx0 hx1 hy0 hy1 hds hr
    simp only [sample_interior_projection] at hr
    rcases Option.map_eq_some'.mp hr with ⟨d, hloop, hf⟩
    obtain ⟨h0', h1', h2', h3'⟩ := hds d (retryLoop_mem _ _ _ _ hloop)
    cases hf
    exact ⟨goodPoint_project_to_border hL hx0 hx1 hy0 hy1,
           goodPoint_project_to_border hL h0' h1' h2' h3'⟩

/-- Witness for C1 at `L = 1` with concrete draws for all nine samplers. -/
theorem samplers_on_perimeter_witness :
    (∃ r, sample_parametric 1 0 2 [] = some r ∧
      goodPoint 1 r.1 ∧ goodPoint 1 r.2) ∧
    (∃ r, sample_by_side 1 (Side.bottom, 0) (Side.top, 1/2) [] = some r ∧
      goodPoint 1 r.1 ∧ goodPoint 1 r.2) ∧
    (∃ r, sample_by_edge_label 1 (Edge.x0, 0) (Edge.yL, 1/2) [] = some r ∧
      goodPoint 1 r.1 ∧ goodPoint 1 r.2) ∧
    (∃ r, sample_polar_ray 1 ⟨0, 1, 0⟩ ⟨1, 0, 1⟩ [] = some r ∧
      goodPoint 1 r.1 ∧ goodPoint 1 r.2) ∧
    (∃ r, sample_side_pos 1 (Side.bottom, 0) (Side.top, 1/2) [] = some r ∧
      goodPoint 1 r.1 ∧ goodPoint 1 r.2) ∧
    (∃ r, sample_parametric_modular 1 0 2 [] = some r ∧
      goodPoint 1 r.1 ∧ goodPoint 1 r.2) ∧
    (∃ r, sample_cartesian 1 ⟨true, true, 1/2⟩ ⟨false, false, 1/4⟩ [] = some r ∧
      goodPoint 1 r.1 ∧ goodPoint 1 r.2) ∧
    (∃ r, sample_polar_angle 1 ⟨0, 1, 0⟩ ⟨1, 0, 1⟩ [] = some r ∧
      goodPoint 1 r.1 ∧ goodPoint 1 r.2) ∧
    (∃ r, sample_interior_projection 1 (1/2, 1/4) (1/4, 1/2) [] = some r ∧
      goodPoint 1 r.1 ∧ goodPoint 1 r.2) := by
  obtain ⟨c1, c2, c3, c4, c5, c6, c7, c8, c9⟩ :=
    samplers_on_perimeter 1 (by norm_num)
  have h1 : sample_parametric 1 0 2 [] = some ((0, 0), (1, 1)) := by
    norm_num [sample_parametric, retryLoop, parametric_point, tol12, abs]
  have h2 : sample_by_side 1 (Side.bottom, 0) (Side.top, 1/2) [] =
      some ((0, 0), (1/2, 1)) := by
    norm_num [sample_by_side, retryLoop, choose_point, _is_distinct, tol12, abs]
  have h3 : sample_by_edge_label 1 (Edge.x0, 0) (Edge.yL, 1/2) [] =
      some ((0, 0), (1/2, 1)) := by
    norm_num [sample_by_edge_label, retryLoop, edge_point, _is_distinct,
      tol12, abs]
  have h4 : sample_polar_ray 1 ⟨0, 1, 0⟩ ⟨1, 0, 1⟩ [] =
      some ((1, 1/2), (1/2, 1)) := by
    norm_num [sample_polar_ray, retryLoop, ray_intersection, ray_select,
      listMin1, tupLt, List.filterMap, tol12, abs]
  have h5 : sample_side_pos 1 (Side.bottom, 0) (Side.top, 1/2) [] =
      some ((0, 0), (1/2, 1)) := by
    norm_num [sample_side_pos, retryLoop, side_pos_point, tol12, abs]
  have h6 : sample_parametric_modular 1 0 2 [] = some ((0, 0), (1, 1)) := by
    norm_num [sample_parametric_modular, retryLoop, _perimeter_to_xy, pymod,
      tol12, abs]
  have h7 : sample_cartesian 1 ⟨true, true, 1/2⟩ ⟨false, false, 1/4⟩ [] =
      some ((1, 1/2), (1/4, 0)) := by
    norm_num [sample_cartesian, retryLoop, cart_pick_point, _is_distinct,
      tol12, abs]
  have h8 : sample_polar_angle 1 ⟨0, 1, 0⟩ ⟨1, 0, 1⟩ [] =
      some ((1, 1/2), (1/2, 1)) := by
    norm_num [sample_polar_angle, retryLoop, angle_to_point, tol12, abs]
  have h9 : sample_interior_projection 1 (1/2, 1/4) (1/4, 1/2) [] =
      some ((1/2, 0), (0, 1/2)) := by
    norm_num [sample_interior_projection, retryLoop, interior_pick_point,
      project_to_border, argmin_key, _is_distinct, tol12, abs]
  refine ⟨⟨_, h1, c1 0 2 [] _ (by norm_num) (by norm_num)
      (by intro t ht; simp at ht; subst ht; norm_num) h1⟩,
    ⟨_, h2, c2 _ _ [] _ (by norm_num) (by norm_num)
      (by intro d hd; simp at hd; subst hd; norm_num) h2⟩,
    ⟨_, h3, c3 _ _ [] _ (by norm_num) (by norm_num)
      (by intro d hd; simp at hd; subst hd; norm_num) h3⟩,
    ⟨_, h4, c4 _ _ [] _ h4⟩,
    ⟨_, h5, c5 _ _ [] _ (by norm_num) (by norm_num)
      (by intro d hd; simp at hd; subst hd; norm_num) h5⟩,
    ⟨_, h6, c6 0 2 [] _ h6⟩,
    ⟨_, h7, c7 _ _ [] _ (by norm_num) (by norm_num)
      (by intro d hd; simp at hd; subst hd; norm_num) h7⟩,
    ⟨_, h8, c8 _ _ [] _ (by norm_num)
      (by intro d hd; simp at hd; subst hd; norm_num) h8⟩,
    ⟨_, h9, c9 _ _ [] _ (by norm_num) (by norm_num) (by norm_num) (by norm_num)
      (by intro d hd; simp at hd; subst hd; norm_num) h9⟩⟩

/-! ### C8: the inline parametric mapping equals the shared helper -/

theorem parametric_point_eq_helper {L : ℚ} (hL : 0 < L) (t : ℚ)
    (h0 : 0 ≤ t) (h4 : t < 4 * L) :
    parametric_point L t = _perimeter_to_xy t L := by
  have hmod : pymod t (4 * L) = t := pymod_eq_self t (4 * L) (by linarith) h0 h4
  unfold parametric_point _perimeter_to_xy
  rw [hmod]
  by_cases h1 : t < L
  · simp [h1]
  · by_cases h2 : t < 2 * L
    · simp [h1, h2]
    · by_cases h3 : t < 3 * L
      · simp only [h1, h2, h3, if_true, if_false, Prod.mk.injEq]
        exact ⟨by ring, trivial⟩
      · simp only [h1, h2, h3, if_true, if_false, Prod.mk.injEq]
        exact ⟨trivial, by ring⟩

/-- **C8.** For `t ∈ [0, 4L)` the inline mapping of `sample_parametric`
returns exactly `_perimeter_to_xy t L` (in particular `3L - t = L - (t-2L)`
on the top interval and `4L - t = L - (t-3L)` on the left interval), so
`sample_parametric` and `sample_parametric_modular` return identical pairs
for identical draws. -/
theorem parametric_inline_matches_helper (L : ℚ) (hL : 0 < L) :
    (∀ t : ℚ, 0 ≤ t → t < 4 * L →
      parametric_point L t = _perimeter_to_xy t L) ∧
    (∀ (t1 t2 : ℚ) (ts : List ℚ), 0 ≤ t1 → t1 < 4 * L →
      (∀ t ∈ t2 :: ts, 0 ≤ t ∧ t < 4 * L) →
      sample_parametric L t1 t2 ts = sample_parametric_modular L t1 t2 ts) := by
  refine ⟨fun t h0 h4 => parametric_point_eq_helper hL t h0 h4, ?_⟩
  intro t1 t2 ts h0 h4 hts
  unfold sample_parametric sample_parametric_modular
  cases hloop : retryLoop (fun t => ¬ |t1 - t| < tol12) t2 ts with
  | none => rfl
  | some a =>
    obtain ⟨ha0, ha4⟩ := hts a (retryLoop_mem _ _ _ _ hloop)
    simp only [Option.map_some', Option.some.injEq]
    rw [parametric_point_eq_helper hL t1 h0 h4,
        parametric_point_eq_helper hL a ha0 ha4]

/-- Witness for C8 at `L = 1`, `t = 5/2` and draws `t1 = 0`, `t2 = 2`. -/
theorem parametric_inline_matches_helper_witness :
    parametric_point 1 (5/2) = _perimeter_to_xy (5/2) 1 ∧
    sample_parametric 1 0 2 [] = sample_parametric_modular 1 0 2 [] := by
  obtain ⟨hpt, hfn⟩ := parametric_inline_matches_helper 1 (by norm_num)
  exact ⟨hpt (5/2) (by norm_num) (by norm_num),
    hfn 0 2 [] (by norm_num) (by norm_num)
      (by intro t ht; simp at ht; subst ht; norm_num)⟩

/-! ### C2: distinctness of the returned pair

The claim fails for the samplers whose retry loop tests the drawn
parameters rather than the resulting points: `sample_side_pos` can return a
pair whose coordinates differ by exactly `1e-12` (not *more* than `1e-12`),
so `are_distinct` is false, while the loop guard
(`side1 == side2 and abs(s1-s2) < 1e-12`) does not retry. -/

/-- **C2 (counterexample).** With valid draws (`side1 = "bottom"`,
`side2 = "left"`, `s1 = s2 = 0 ∈ [0, L]`, `L = 1`), `sample_side_pos`'s
guard (`side1 == side2 and abs(s1-s2) < 1e-12`) does not retry because the
sides differ, yet both draws map to the corner `(0, 0)`: the returned pair
is two identical points, which `are_distinct` rejects. -/
theorem sample_side_pos_not_distinct :
    (0 : ℚ) ≤ 0 ∧ (0 : ℚ) ≤ 1 ∧
    sample_side_pos 1 (Side.bottom, 0) (Side.left, 0) [] =
      some ((0, 0), (0, 0)) ∧
    ¬ are_distinct (0, 0) (0, 0) tol12 := by
  refine ⟨le_rfl, by norm_num, ?_, ?_⟩
  · rfl
  · norm_num [are_distinct, tol12, abs]

/-- **C2 (amended).** The four samplers whose retry loops test the
resulting points (`sample_by_side`, `sample_by_edge_label`,
`sample_cartesian`, `sample_interior_projection`) always return pairs
satisfying `are_distinct` at tolerance `1e-12`; the parameter-testing
samplers (`sample_parametric`, `sample_polar_ray`, `sample_side_pos`,
`sample_parametric_modular`, `sample_polar_angle`) do not guarantee it. -/
theorem point_retry_samplers_distinct (L : ℚ) :
    (∀ (d1 d2 : Side × ℚ) (ds : List (Side × ℚ)) (r : Point × Point),
      sample_by_side L d1 d2 ds = some r → are_distinct r.1 r.2 tol12) ∧
    (∀ (d1 d2 : Edge × ℚ) (ds : List (Edge × ℚ)) (r : Point × Point),
      sample_by_edge_label L d1 d2 ds = some r → are_distinct r.1 r.2 tol12) ∧
    (∀ (d1 d2 : CartDraw) (ds : List CartDraw) (r : Point × Point),
      sample_cartesian L d1 d2 ds = some r → are_distinct r.1 r.2 tol12) ∧
    (∀ (d1 d2 : ℚ × ℚ) (ds : List (ℚ × ℚ)) (r : Point × Point),
      sample_interior_projection L d1 d2 ds = some r →
      are_distinct r.1 r.2 tol12) := by
  refine ⟨?_, ?_, ?_, ?_⟩ <;> intro d1 d2 ds r hr
  · simp only [sample_by_side] at hr
    rcases Option.map_eq_some'.mp hr with ⟨d, hloop, hf⟩
    have hsat := retryLoop_sat _ _ _ _ hloop
    cases hf
    unfold _is_distinct at hsat
    unfold are_distinct
    exact hsat
  · simp only [sample_by_edge_label] at hr
    rcases Option.map_eq_some'.mp hr with ⟨d, hloop, hf⟩
    have hsat := retryLoop_sat _ _ _ _ hloop
    cases hf
    unfold _is_distinct at hsat
    unfold are_distinct
    exact hsat
  · simp only [sample_cartesian] at hr
    rcases Option.map_eq_some'.mp hr with ⟨d, hloop, hf⟩
    have hsat := retryLoop_sat _ _ _ _ hloop
    cases hf
    unfold _is_distinct at hsat
    unfold are_distinct
    exact hsat
  · simp only [sample_interior_projection] at hr
    rcases Option.map_eq_some'.mp hr with ⟨d, hloop, hf⟩
    have hsat := retryLoop_sat _ _ _ _ hloop
    cases hf
    unfold _is_distinct at hsat
    unfold are_distinct
    exact hsat

/-- Witness for the amended C2 at `L = 1` with concrete draws. -/
theorem point_retry_samplers_distinct_witness :
    (∃ r, sample_by_side 1 (Side.bottom, 0) (Side.top, 1/2) [] = some r ∧
      are_distinct r.1 r.2 tol12) ∧
    (∃ r, sample_by_edge_label 1 (Edge.x0, 0) (Edge.yL, 1/2) [] = some r ∧
      are_distinct r.1 r.2 tol12) ∧
    (∃ r, sample_cartesian 1 ⟨true, true, 1/2⟩ ⟨false, false, 1/4⟩ [] = some r ∧
      are_distinct r.1 r.2 tol12) ∧
    (∃ r, sample_interior_projection 1 (1/2, 1/4) (1/4, 1/2) [] = some r ∧
      are_distinct r.1 r.2 tol12) := by
  obtain ⟨a1, a2, a3, a4⟩ := point_retry_samplers_distinct 1
  have h2 : sample_by_side 1 (Side.bottom, 0) (Side.top, 1/2) [] =
      some ((0, 0), (1/2, 1)) := by
    norm_num [sample_by_side, retryLoop, choose_point, _is_distinct, tol12, abs]
  have h3 : sample_by_edge_label 1 (Edge.x0, 0) (Edge.yL, 1/2) [] =
      some ((0, 0), (1/2, 1)) := by
    norm_num [sample_by_edge_label, retryLoop, edge_point, _is_distinct,
      tol12, abs]
  have h7 : sample_cartesian 1 ⟨true, true, 1/2⟩ ⟨false, false, 1/4⟩ [] =
      some ((1, 1/2), (1/4, 0)) := by
    norm_num [sample_cartesian, retryLoop, cart_pick_point, _is_distinct,
      tol12, abs]
  have h9 : sample_interior_projection 1 (1/2, 1/4) (1/4, 1/2) [] =
      some ((1/2, 0), (0, 1/2)) := by
    norm_num [sample_interior_projection, retryLoop, interior_pick_point,
      project_to_border, argmin_key, _is_distinct, tol12, abs]
  exact ⟨⟨_, h2, a1 _ _ [] _ h2⟩, ⟨_, h3, a2 _ _ [] _ h3⟩,
    ⟨_, h7, a3 _ _ [] _ h7⟩, ⟨_, h9, a4 _ _ [] _ h9⟩⟩

/-! ### C3: validation of non-positive side lengths

Only the `PerimeterSampler` constructor in core/base.py validates `L`; the
nine module-level sampling functions perform no check and happily return a
point pair for `L ≤ 0`. -/

/-- **C3 (counterexample).** `sample_parametric(-1)` with draws `-2`, `-3`
(which `random.uniform(0, 4·(-1))` can produce) raises nothing and returns
a point pair, contradicting "no point pair is returned". -/
theorem sample_parametric_accepts_nonpositive :
    (-1 : ℚ) ≤ 0 ∧
    sample_parametric (-1) (-2) (-3) [] = some ((-2, 0), (-3, 0)) := by
  constructor
  · norm_num
  · norm_num [sample_parametric, retryLoop, parametric_point, tol12, abs]

/-- **C3 (amended).** Constructing a `PerimeterSampler` with `L ≤ 0` fails
immediately with the invalid-argument error and no value is produced; the
module-level sampling functions perform no such validation. -/
theorem perimeterSampler_init_rejects (L : ℚ) (h : L ≤ 0) :
    perimeterSampler_init L =
      Except.error "Side length L must be positive" := by
  unfold perimeterSampler_init
  rw [if_pos h]

/-- Witness for the amended C3 at `L = 0`. -/
theorem perimeterSampler_init_rejects_witness :
    perimeterSampler_init 0 =
      Except.error "Side length L must be positive" :=
  perimeterSampler_init_rejects 0 (by norm_num)

/-- Witness for C9: the origin is a corner, a side midpoint is a side. -/
theorem side_of_classification_witness :
    side_of (0, 0) 1 tol9 = "corner" ∧ side_of (1/2, 0) 1 tol9 = "bottom" := by
  constructor
  · exact (side_of_classification (0, 0) 1 tol9).1.mpr
      (Or.inr (Or.inl ⟨by norm_num [tol9], by norm_num [tol9]⟩))
  · exact (side_of_classification (1/2, 0) 1 tol9).2.1
      ⟨by norm_num [tol9], by norm_num [tol9, abs], by norm_num [tol9, abs],
       by norm_num [tol9, abs]⟩


/-! ### Facts about folded minima and maxima, and `isclose` -/

theorem isclose_refl (a : ℚ) : isclose a a := by
  unfold isclose
  simp

theorem foldl_min_mem (h : ℚ) (t : List ℚ) : t.foldl min h ∈ h :: t :=
  foldl_choice_mem min min_choice h t

theorem foldl_max_mem (h : ℚ) (t : List ℚ) : t.foldl max h ∈ h :: t :=
  foldl_choice_mem max max_choice h t

theorem foldl_min_le (h : ℚ) (t : List ℚ) :
    ∀ d ∈ h :: t, t.foldl min h ≤ d := by
  induction t generalizing h with
  | nil =>
    intro d hd
    simp only [List.mem_singleton] at hd
    subst hd
    exact le_rfl
  | cons a t ih =>
    intro d hd
    simp only [List.foldl_cons]
    have hhead : t.foldl min (min h a) ≤ min h a :=
      ih (min h a) (min h a) (List.mem_cons_self _ _)
    rcases List.mem_cons.mp hd with rfl | hd'
    · exact le_trans hhead (min_le_left _ _)
    · rcases List.mem_cons.mp hd' with rfl | hd''
      · exact le_trans hhead (min_le_right _ _)
      · exact ih (min h a) d (List.mem_cons_of_mem _ hd'')

theorem foldl_max_ge (h : ℚ) (t : List ℚ) :
    ∀ d ∈ h :: t, d ≤ t.foldl max h := by
  induction t generalizing h with
  | nil =>
    intro d hd
    simp only [List.mem_singleton] at hd
    subst hd
    exact le_rfl
  | cons a t ih =>
    intro d hd
    simp only [List.foldl_cons]
    have hhead : max h a ≤ t.foldl max (max h a) :=
      ih (max h a) (max h a) (List.mem_cons_self _ _)
    rcases List.mem_cons.mp hd with rfl | hd'
    · exact le_trans (le_max_left _ _) hhead
    · rcases List.mem_cons.mp hd' with rfl | hd''
      · exact le_trans (le_max_right _ _) hhead
      · exact ih (max h a) d (List.mem_cons_of_mem _ hd'')

theorem countP_isSome_eq_length_filterMap (row : List (Option ℚ)) :
    row.countP (fun e => e.isSome) = (row.filterMap id).length := by
  induction row with
  | nil => rfl
  | cons a t ih =>
    cases a <;> simp [List.countP_cons, List.filterMap_cons, ih]

theorem countP_exceptSome_eq_length_filterMap (l : List (Except Unit ℚ)) :
    l.countP (fun o => o.toOption.isSome) =
      (l.filterMap Except.toOption).length := by
  induction l with
  | nil => rfl
  | cons a t ih =>
    cases a with
    | error u =>
      simp [List.countP_cons, List.filterMap_cons, Except.toOption]
      simpa [Except.toOption] using ih
    | ok v =>
      simp [List.countP_cons, List.filterMap_cons, Except.toOption]
      simpa [Except.toOption] using ih

theorem sum_boole_eq_countP (l : List ℚ) (p : ℚ → Prop) [DecidablePred p] :
    (l.map (fun d => if p d then (1 : Nat) else 0)).sum =
      l.countP (fun d => decide (p d)) := by
  induction l with
  | nil => rfl
  | cons a t ih =>
    by_cases h : p a
    · simp [List.countP_cons, h, ih]
      omega
    · simp [List.countP_cons, h, ih]

/-! ### C4: the summary statistics -/

theorem summarizeOne_cons (row : List (Option ℚ)) (L h : ℚ) (hs : List ℚ)
    (hrow : row.filterMap id = h :: hs) :
    summarizeOne row L =
      ⟨((h :: hs).map (fun d => if L < d then (1 : Nat) else 0)).sum,
       (h :: hs).length,
       (h :: hs).sum / ((h :: hs).length : ℚ),
       ((h :: hs).map
         (fun d => (d - (h :: hs).sum / ((h :: hs).length : ℚ)) ^ 2)).sum /
         ((h :: hs).length : ℚ),
       hs.foldl min h, hs.foldl max h⟩ := by
  unfold summarizeOne
  rw [hrow]

theorem analyze_cons (outcomes : List (Except Unit ℚ)) (L h : ℚ)
    (hs : List ℚ)
    (hout : outcomes.filterMap Except.toOption = h :: hs) :
    analyze outcomes L =
      ⟨((h :: hs).map (fun d => if L < d then (1 : Nat) else 0)).sum,
       (h :: hs).length,
       (h :: hs).sum / ((h :: hs).length : ℚ),
       ((h :: hs).map
         (fun d => (d - (h :: hs).sum / ((h :: hs).length : ℚ)) ^ 2)).sum /
         ((h :: hs).length : ℚ),
       hs.foldl min h, hs.foldl max h⟩ := by
  unfold analyze
  rw [hout]

/-- **C4.** When some distances were recorded, the summary step of both
aggregators returns: `count_gt_L` = the number of recorded distances
strictly greater than `L`; `attempts` = the number of trials the strategy
did not fail; `mean · attempts` = the sum of recorded distances (i.e. mean
= sum/attempts); the `std` radicand `variance` satisfies
`variance · attempts` = the sum of squared deviations from the mean
(population variance: divided by `attempts`, not `attempts - 1`); and
`min`/`max` are the exact extrema of the recorded distances. -/
theorem summary_statistics (L : ℚ) :
    (∀ (row : List (Option ℚ)) (h : ℚ) (hs : List ℚ),
      row.filterMap id = h :: hs →
      (summarizeOne row L).count_gt_L =
        (row.filterMap id).countP (fun d => decide (L < d)) ∧
      (summarizeOne row L).attempts = row.countP (fun e => e.isSome) ∧
      (summarizeOne row L).mean * ((summarizeOne row L).attempts : ℚ) =
        (row.filterMap id).sum ∧
      (summarizeOne row L).variance * ((summarizeOne row L).attempts : ℚ) =
        ((row.filterMap id).map
          (fun d => (d - (summarizeOne row L).mean) ^ 2)).sum ∧
      (summarizeOne row L).dmin ∈ row.filterMap id ∧
      (∀ d ∈ row.filterMap id, (summarizeOne row L).dmin ≤ d) ∧
      (summarizeOne row L).dmax ∈ row.filterMap id ∧
      (∀ d ∈ row.filterMap id, d ≤ (summarizeOne row L).dmax)) ∧
    (∀ (outcomes : List (Except Unit ℚ)) (h : ℚ) (hs : List ℚ),
      outcomes.filterMap Except.toOption = h :: hs →
      (analyze outcomes L).count_gt_L =
        (outcomes.filterMap Except.toOption).countP
          (fun d => decide (L < d)) ∧
      (analyze outcomes L).attempts =
        outcomes.countP (fun o => o.toOption.isSome) ∧
      (analyze outcomes L).mean * ((analyze outcomes L).attempts : ℚ) =
        (outcomes.filterMap Except.toOption).sum ∧
      (analyze outcomes L).variance * ((analyze outcomes L).attempts : ℚ) =
        ((outcomes.filterMap Except.toOption).map
          (fun d => (d - (analyze outcomes L).mean) ^ 2)).sum ∧
      (analyze outcomes L).dmin ∈ outcomes.filterMap Except.toOption ∧
      (∀ d ∈ outcomes.filterMap Except.toOption,
        (analyze outcomes L).dmin ≤ d) ∧
      (analyze outcomes L).dmax ∈ outcomes.filterMap Except.toOption ∧
      (∀ d ∈ outcomes.filterMap Except.toOption,
        d ≤ (analyze outcomes L).dmax)) := by
  have hlen : ∀ (h : ℚ) (hs : List ℚ), ((h :: hs).length : ℚ) ≠ 0 := by
    intro h hs
    exact Nat.cast_ne_zero.mpr (Nat.succ_ne_zero _)
  constructor
  · intro row h hs hrow
    rw [summarizeOne_cons row L h hs hrow, hrow]
    refine ⟨?_, ?_, ?_, ?_, ?_, ?_, ?_, ?_⟩
    · exact sum_boole_eq_countP (h :: hs) (fun d => L < d)
    · rw [countP_isSome_eq_length_filterMap, hrow]
    · exact div_mul_cancel₀ _ (hlen h hs)
    · exact div_mul_cancel₀ _ (hlen h hs)
    · exact foldl_min_mem h hs
    · exact foldl_min_le h hs
    · exact foldl_max_mem h hs
    · exact foldl_max_ge h hs
  · intro outcomes h hs hout
    rw [analyze_cons outcomes L h hs hout, hout]
    refine ⟨?_, ?_, ?_, ?_, ?_, ?_, ?_, ?_⟩
    · exact sum_boole_eq_countP (h :: hs) (fun d => L < d)
    · rw [countP_exceptSome_eq_length_filterMap, hout]
    · exact div_mul_cancel₀ _ (hlen h hs)
    · exact div_mul_cancel₀ _ (hlen h hs)
    · exact foldl_min_mem h hs
    · exact foldl_min_le h hs
    · exact foldl_max_mem h hs
    · exact foldl_max_ge h hs

/-- Witness for C4 on the recorded distances `[1, 3]` with one failed
trial, `L = 2`. -/
theorem summary_statistics_witness :
    ((summarizeOne [some 1, none, some 3] 2).count_gt_L =
      ([some (1 : ℚ), none, some 3].filterMap id).countP
        (fun d => decide ((2 : ℚ) < d))) ∧
    ((analyze [Except.ok 1, Except.error (), Except.ok 3] 2).attempts =
      [Except.ok (1 : ℚ), Except.error (), Except.ok 3].countP
        (fun o => o.toOption.isSome)) := by
  obtain ⟨g1, -, -, -, -, -, -, -⟩ :=
    (summary_statistics 2).1 [some 1, none, some 3] 1 [3] rfl
  obtain ⟨-, a2, -, -, -, -, -, -⟩ :=
    (summary_statistics 2).2 [Except.ok 1, Except.error (), Except.ok 3]
      1 [3] rfl
  exact ⟨g1, a2⟩

/-! ### C10: the all-zero record for strategies with no recorded distance -/

/-- **C10.** A strategy with no successfully recorded distance gets the
all-zero summary record (zero count, attempts, mean, variance, min, max and
zero win tallies) from both aggregators; nothing is raised since the empty
case is branched on before any division or `min`/`max`. -/
theorem summary_empty_all_zero (L : ℚ) :
    (∀ row : List (Option ℚ), row.filterMap id = [] →
      summarizeOne row L = ⟨0, 0, 0, 0, 0, 0⟩) ∧
    (∀ (data : RunData) (i : Nat) (dl : List (Option ℚ)) (w : Nat × Nat),
      (data.distances.zip (data.min_wins.zip data.max_wins))[i]? =
        some (dl, w) →
      dl.filterMap id = [] →
      (summarize data L)[i]? = some (⟨0, 0, 0, 0, 0, 0⟩, 0, 0)) ∧
    (∀ outcomes : List (Except Unit ℚ),
      outcomes.filterMap Except.toOption = [] →
      analyze outcomes L = ⟨0, 0, 0, 0, 0, 0⟩) := by
  refine ⟨?_, ?_, ?_⟩
  · intro row hrow
    unfold summarizeOne
    rw [hrow]
  · intro data i dl w hzip hdl
    unfold summarize
    rw [List.getElem?_map, hzip]
    simp only [Option.map_some', Option.some.injEq]
    rw [if_pos hdl]
  · intro outcomes hout
    unfold analyze
    rw [hout]

/-- Witness for C10: one always-failing strategy over one trial. -/
theorem summary_empty_all_zero_witness :
    summarizeOne [none] 2 = ⟨0, 0, 0, 0, 0, 0⟩ ∧
    (summarize ⟨[[none]], [0], [0]⟩ 2)[0]? =
      some (⟨0, 0, 0, 0, 0, 0⟩, 0, 0) ∧
    analyze [Except.error ()] 2 = ⟨0, 0, 0, 0, 0, 0⟩ := by
  obtain ⟨e1, e2, e3⟩ := summary_empty_all_zero 2
  exact ⟨e1 [none] rfl, e2 ⟨[[none]], [0], [0]⟩ 0 [none] (0, 0) rfl rfl,
    e3 [Except.error ()] rfl⟩


/-! ### Facts about `runAll` -/

theorem runAllStep_distances (row : List (Option ℚ)) (acc : RunData) :
    (runAllStep row acc).distances =
      List.zipWith (fun l e => l ++ [e]) acc.distances row := by
  unfold runAllStep
  rcases rowValidMin row with _ | m <;> rcases rowValidMax row with _ | M <;> rfl

theorem runAllStep_wins_some (row : List (Option ℚ)) (acc : RunData)
    (mind maxd : ℚ) (h1 : rowValidMin row = some mind)
    (h2 : rowValidMax row = some maxd) :
    (runAllStep row acc).min_wins =
      List.zipWith (· + ·) acc.min_wins (creditRow row mind) ∧
    (runAllStep row acc).max_wins =
      List.zipWith (· + ·) acc.max_wins (creditRow row maxd) := by
  unfold runAllStep
  rw [h1, h2]
  exact ⟨rfl, rfl⟩

theorem rowValidMax_none_of_min_none (row : List (Option ℚ))
    (h : rowValidMin row = none) : rowValidMax row = none := by
  unfold rowValidMin at h
  unfold rowValidMax
  rcases hf : row.filterMap id with _ | ⟨a, t⟩
  · rfl
  · rw [hf] at h
    cases h

theorem rowValidMax_some_of_min_some (row : List (Option ℚ)) (mind : ℚ)
    (h : rowValidMin row = some mind) :
    ∃ maxd, rowValidMax row = some maxd := by
  unfold rowValidMin at h
  unfold rowValidMax
  rcases hf : row.filterMap id with _ | ⟨a, t⟩
  · rw [hf] at h
    cases h
  · exact ⟨_, rfl⟩

theorem runAllStep_wins_none (row : List (Option ℚ)) (acc : RunData)
    (h : rowValidMin row = none) :
    (runAllStep row acc).min_wins = acc.min_wins ∧
    (runAllStep row acc).max_wins = acc.max_wins := by
  unfold runAllStep
  rw [h, rowValidMax_none_of_min_none row h]
  exact ⟨rfl, rfl⟩

theorem runAll_lengths (n : Nat) (outs : Nat → List (Except Unit ℚ))
    (hn : ∀ t, (outs t).length = n) (k : Nat) :
    (runAll n outs k).distances.length = n ∧
    (runAll n outs k).min_wins.length = n ∧
    (runAll n outs k).max_wins.length = n := by
  induction k with
  | zero => simp [runAll, runAllInit]
  | succ k ih =>
    obtain ⟨hd, hminl, hmaxl⟩ := ih
    have hrow : (mkRow (outs k)).length = n := by simp [mkRow, hn k]
    have hcredit : ∀ target, (creditRow (mkRow (outs k)) target).length = n := by
      intro target
      simp [creditRow, hrow]
    simp only [runAll]
    unfold runAllStep
    rcases rowValidMin (mkRow (outs k)) with _ | mind <;>
      rcases rowValidMax (mkRow (outs k)) with _ | maxd <;>
      simp [List.length_zipWith, hd, hminl, hmaxl, hrow, hcredit]

theorem runAll_distances_get (n : Nat) (outs : Nat → List (Except Unit ℚ))
    (hn : ∀ t, (outs t).length = n) (k i : Nat) (hi : i < n) :
    (runAll n outs k).distances[i]? =
      some ((List.range k).map (fun t => (mkRow (outs t)).getD i none)) := by
  induction k with
  | zero => simp [runAll, runAllInit, List.getElem?_replicate, hi]
  | succ k ih =>
    have hrow : (mkRow (outs k)).length = n := by simp [mkRow, hn k]
    have hrowi : (mkRow (outs k))[i]? =
        some ((mkRow (outs k)).getD i none) := by
      rw [List.getD_eq_getElem?_getD, List.getElem?_eq_getElem (hrow ▸ hi)]
      rfl
    simp only [runAll]
    rw [runAllStep_distances, List.getElem?_zipWith', ih, hrowi]
    simp [List.range_succ]


/-! ### C5: win crediting within one trial -/

/-- **C5.** In a trial `k` where at least one strategy succeeded (the row
minimum and maximum exist), every succeeded strategy whose distance is
`isclose` (rel. tol. `1e-9`) to the trial minimum has its min-win tally
incremented by one, every one `isclose` to the trial maximum has its
max-win tally incremented by one, and the others are unchanged — several
strategies can be credited in the same trial; moreover some strategy
attains the minimum exactly and some the maximum (and `isclose` is
reflexive), so at least one min-win and one max-win are credited. -/
theorem run_all_win_crediting (n : Nat) (outs : Nat → List (Except Unit ℚ))
    (hn : ∀ t, (outs t).length = n) (k : Nat) (mind maxd : ℚ)
    (hmin : rowValidMin (mkRow (outs k)) = some mind)
    (hmax : rowValidMax (mkRow (outs k)) = some maxd) :
    (∀ (i : Nat) (d : ℚ), (mkRow (outs k))[i]? = some (some d) →
      ((isclose d mind →
        (runAll n outs (k + 1)).min_wins[i]? =
          ((runAll n outs k).min_wins[i]?).map (· + 1)) ∧
       (¬ isclose d mind →
        (runAll n outs (k + 1)).min_wins[i]? =
          (runAll n outs k).min_wins[i]?) ∧
       (isclose d maxd →
        (runAll n outs (k + 1)).max_wins[i]? =
          ((runAll n outs k).max_wins[i]?).map (· + 1)) ∧
       (¬ isclose d maxd →
        (runAll n outs (k + 1)).max_wins[i]? =
          (runAll n outs k).max_wins[i]?))) ∧
    (∃ i : Nat, (mkRow (outs k))[i]? = some (some mind) ∧
      isclose mind mind) ∧
    (∃ i : Nat, (mkRow (outs k))[i]? = some (some maxd) ∧
      isclose maxd maxd) := by
  obtain ⟨hminw, hmaxw⟩ :=
    runAllStep_wins_some (mkRow (outs k)) (runAll n outs k) mind maxd hmin hmax
  have hstep : runAll n outs (k + 1) =
      runAllStep (mkRow (outs k)) (runAll n outs k) := rfl
  refine ⟨?_, ?_, ?_⟩
  · intro i d hid
    have hi : i < (mkRow (outs k)).length := (List.getElem?_eq_some.mp hid).1
    have hin : i < n := by
      rw [mkRow, List.length_map, hn k] at hi
      exact hi
    obtain ⟨-, hminl, hmaxl⟩ := runAll_lengths n outs hn k
    have hwm := List.getElem?_eq_getElem
      (show i < (runAll n outs k).min_wins.length by rw [hminl]; exact hin)
    have hwx := List.getElem?_eq_getElem
      (show i < (runAll n outs k).max_wins.length by rw [hmaxl]; exact hin)
    have hcredmin : (creditRow (mkRow (outs k)) mind)[i]? =
        some (if isclose d mind then 1 else 0) := by
      unfold creditRow
      rw [List.getElem?_map, hid]
      rfl
    have hcredmax : (creditRow (mkRow (outs k)) maxd)[i]? =
        some (if isclose d maxd then 1 else 0) := by
      unfold creditRow
      rw [List.getElem?_map, hid]
      rfl
    refine ⟨?_, ?_, ?_, ?_⟩
    · intro hc
      rw [hstep, hminw, List.getElem?_zipWith', hwm, hcredmin, if_pos hc]
      rfl
    · intro hc
      rw [hstep, hminw, List.getElem?_zipWith', hwm, hcredmin, if_neg hc]
      rfl
    · intro hc
      rw [hstep, hmaxw, List.getElem?_zipWith', hwx, hcredmax, if_pos hc]
      rfl
    · intro hc
      rw [hstep, hmaxw, List.getElem?_zipWith', hwx, hcredmax, if_neg hc]
      rfl
  · unfold rowValidMin at hmin
    rcases hf : (mkRow (outs k)).filterMap id with _ | ⟨a, t⟩
    · rw [hf] at hmin
      cases hmin
    · rw [hf] at hmin
      cases hmin
      have hmem : t.foldl min a ∈ (mkRow (outs k)).filterMap id := by
        rw [hf]
        exact foldl_min_mem a t
      rcases List.mem_filterMap.mp hmem with ⟨o, ho, hoe⟩
      rcases List.mem_iff_getElem?.mp ho with ⟨i, hi⟩
      refine ⟨i, ?_, isclose_refl _⟩
      rw [hi]
      exact congrArg some hoe
  · unfold rowValidMax at hmax
    rcases hf : (mkRow (outs k)).filterMap id with _ | ⟨a, t⟩
    · rw [hf] at hmax
      cases hmax
    · rw [hf] at hmax
      cases hmax
      have hmem : t.foldl max a ∈ (mkRow (outs k)).filterMap id := by
        rw [hf]
        exact foldl_max_mem a t
      rcases List.mem_filterMap.mp hmem with ⟨o, ho, hoe⟩
      rcases List.mem_iff_getElem?.mp ho with ⟨i, hi⟩
      refine ⟨i, ?_, isclose_refl _⟩
      rw [hi]
      exact congrArg some hoe

/-- Witness for C5: two strategies, one trial; strategy 0 succeeds with
distance 1 (the trial extremum), strategy 1 fails. -/
theorem run_all_win_crediting_witness :
    (runAll 2 (fun _ => [Except.ok 1, Except.error ()]) 1).min_wins[0]? =
      some 1 ∧
    (runAll 2 (fun _ => [Except.ok 1, Except.error ()]) 1).max_wins[0]? =
      some 1 ∧
    (∃ i : Nat, (mkRow [Except.ok (1 : ℚ), Except.error ()])[i]? =
      some (some 1) ∧ isclose 1 1) := by
  obtain ⟨hcred, hex, -⟩ :=
    run_all_win_crediting 2 (fun _ => [Except.ok 1, Except.error ()])
      (fun _ => rfl) 0 1 1 rfl rfl
  obtain ⟨h1, -, h3, -⟩ := hcred 0 1 rfl
  refine ⟨?_, ?_, hex⟩
  · rw [h1 (isclose_refl 1)]
    rfl
  · rw [h3 (isclose_refl 1)]
    rfl

/-! ### C6: a failing strategy is isolated -/

/-- **C6.** A strategy that raises in one trial is recorded as `None` for
that trial, is excluded from that trial's win competition (its tallies are
unchanged by the trial), and the run still completes: every strategy's
distance list has one entry per trial.  `runAll` is a total function: the
exception never propagates. -/
theorem run_all_error_isolation (n : Nat) (outs : Nat → List (Except Unit ℚ))
    (hn : ∀ t, (outs t).length = n) (N : Nat) :
    (∀ i : Nat, i < n → ∃ l, (runAll n outs N).distances[i]? = some l ∧
      l.length = N) ∧
    (∀ t i : Nat, t < N → (outs t)[i]? = some (Except.error ()) →
      ∃ l, (runAll n outs N).distances[i]? = some l ∧ l[t]? = some none) ∧
    (∀ t i : Nat, (outs t)[i]? = some (Except.error ()) →
      (runAll n outs (t + 1)).min_wins[i]? =
        (runAll n outs t).min_wins[i]? ∧
      (runAll n outs (t + 1)).max_wins[i]? =
        (runAll n outs t).max_wins[i]?) := by
  refine ⟨?_, ?_, ?_⟩
  · intro i hi
    exact ⟨_, runAll_distances_get n outs hn N i hi, by simp⟩
  · intro t i ht herr
    have hi : i < n := by
      have := (List.getElem?_eq_some.mp herr).1
      rw [hn t] at this
      exact this
    refine ⟨_, runAll_distances_get n outs hn N i hi, ?_⟩
    have hrowi : (mkRow (outs t))[i]? = some none := by
      rw [mkRow, List.getElem?_map, herr]
      rfl
    rw [List.getElem?_map, List.getElem?_range ht]
    simp [List.getD_eq_getElem?_getD, hrowi]
  · intro t i herr
    have hi : i < n := by
      have := (List.getElem?_eq_some.mp herr).1
      rw [hn t] at this
      exact this
    have hstep : runAll n outs (t + 1) =
        runAllStep (mkRow (outs t)) (runAll n outs t) := rfl
    have hrowi : (mkRow (outs t))[i]? = some none := by
      rw [mkRow, List.getElem?_map, herr]
      rfl
    obtain ⟨-, hminl, hmaxl⟩ := runAll_lengths n outs hn t
    have hwm := List.getElem?_eq_getElem
      (show i < (runAll n outs t).min_wins.length by rw [hminl]; exact hi)
    have hwx := List.getElem?_eq_getElem
      (show i < (runAll n outs t).max_wins.length by rw [hmaxl]; exact hi)
    rcases hmin : rowValidMin (mkRow (outs t)) with _ | mind
    · obtain ⟨hm, hx⟩ :=
        runAllStep_wins_none (mkRow (outs t)) (runAll n outs t) hmin
      rw [hstep, hm, hx]
      exact ⟨rfl, rfl⟩
    · obtain ⟨maxd, hmax⟩ :=
        rowValidMax_some_of_min_some (mkRow (outs t)) mind hmin
      obtain ⟨hm, hx⟩ :=
        runAllStep_wins_some (mkRow (outs t)) (runAll n outs t)
          mind maxd hmin hmax
      have hcredmin : (creditRow (mkRow (outs t)) mind)[i]? = some 0 := by
        unfold creditRow
        rw [List.getElem?_map, hrowi]
        rfl
      have hcredmax : (creditRow (mkRow (outs t)) maxd)[i]? = some 0 := by
        unfold creditRow
        rw [List.getElem?_map, hrowi]
        rfl
      constructor
      · rw [hstep, hm, List.getElem?_zipWith', hwm, hcredmin]
        rfl
      · rw [hstep, hx, List.getElem?_zipWith', hwx, hcredmax]
        rfl

/-- Witness for C6: two strategies, one trial, strategy 1 raising. -/
theorem run_all_error_isolation_witness :
    (∃ l, (runAll 2 (fun _ => [Except.ok 1, Except.error ()]) 1).distances[1]?
      = some l ∧ l.length = 1 ∧ l[0]? = some none) ∧
    (runAll 2 (fun _ => [Except.ok 1, Except.error ()]) 1).min_wins[1]? =
      (runAll 2 (fun _ => [Except.ok 1, Except.error ()]) 0).min_wins[1]? := by
  obtain ⟨hlen, herr, hwins⟩ :=
    run_all_error_isolation 2 (fun _ => [Except.ok 1, Except.error ()])
      (fun _ => rfl) 1
  obtain ⟨l, hl, hl0⟩ := herr 0 1 (by norm_num) rfl
  obtain ⟨m, hm, hmlen⟩ := hlen 1 (by norm_num)
  rw [hl] at hm
  cases hm
  exact ⟨⟨l, hl, hmlen, hl0⟩, (hwins 0 1 rfl).1⟩

end Geometry
